import Mathlib

set_option autoImplicit false

/-!  Verification of the tag-mappings resolution code in the `metadata`
package (`mappingsConf`, `tagConf`, `collectTags`, `parseMappings` and the
accessors `mappings`, `rolesConf`, `artistsConf`).

Modelling conventions:
* A Go string is modelled as the list of its runes (Unicode code points),
  type `RStr`; `strings.ToLower` (and `model.TagName.ToLower`) is modelled
  rune-wise on the ASCII range by `toLowerStr`.
* A Go map (`tagMappings`) being iterated is modelled as the list of its
  entries in iteration order (`Tier`); the target map `normalized` is an
  association list with replace-on-collision insertion (`mapInsert`),
  observed through `lookupTag`.
* A nil Go slice is `none`, a non-nil slice is `some` of its elements; this
  matters because `collectTags` tests `v.Split != nil`.
* The `type` field (Go `TagType`, a string type) is kept as a Lean `String`;
  the zero value is `""`, which the spec calls `none`.
-/

namespace Navidrome.Metadata

/-- A rune (Unicode code point). -/
abbrev Rune := Nat

/-- A Go string, as the list of its runes. -/
abbrev RStr := List Rune

/-- Builds the rune-list model of a string literal (used for concrete inputs). -/
def str2r (s : String) : RStr := s.data.map Char.toNat

/-- Model of `strings.ToLower` on one rune, on the ASCII range: the upper-case
letters `A`..`Z` (65..90) map to `a`..`z` (97..122), everything else is kept. -/
def lowerRune (r : Rune) : Rune := if 65 ≤ r ∧ r ≤ 90 then r + 32 else r

/-- Model of `strings.ToLower` and `model.TagName.ToLower`: rune-wise lowering. -/
def toLowerStr (s : RStr) : RStr := s.map lowerRune

/-- Model of the Go struct `tagConf` (fields `Aliases`, `Type`, `MaxLength`,
`Split`).  `split = none` models a nil slice. -/
structure TagConf where
  aliases : List RStr
  type : String
  maxLength : Int
  split : Option (List RStr)
  deriving Repr, DecidableEq

/-- The zero value of `tagConf` (what YAML decoding leaves for absent fields). -/
def TagConf.zero : TagConf := ⟨[], "", 0, none⟩

/-- One tier of the raw document: the entries of the Go map `tagMappings`
(`map[model.TagName]tagConf`) in iteration order. -/
abbrev Tier := List (RStr × TagConf)

/-- Model of the Go struct `mappingsConf` (fields `Main`, `Additional`,
`Roles`, `Artists`). -/
structure MappingsConf where
  main : Tier
  additional : Tier
  roles : TagConf
  artists : TagConf
  deriving Repr, DecidableEq

/-- The zero value of `mappingsConf`. -/
def MappingsConf.zero : MappingsConf := ⟨[], [], TagConf.zero, TagConf.zero⟩

/-- The target map `normalized`, as an association list without duplicate
keys; models the Go map `tagMappings` being written to. -/
abbrev TagMap := List (RStr × TagConf)

/-- Map update `normalized[k] = v`: replaces the entry if the key is present,
otherwise appends it. -/
def mapInsert (m : TagMap) (k : RStr) (v : TagConf) : TagMap :=
  match m with
  | [] => [(k, v)]
  | (k', v') :: rest => if k' = k then (k, v) :: rest else (k', v') :: mapInsert rest k v

/-- Map read `normalized[k]`. -/
def lookupTag (m : TagMap) (k : RStr) : Option TagConf :=
  match m with
  | [] => none
  | (k', v') :: rest => if k' = k then some v' else lookupTag rest k

/-- The per-entry work of the loop body of `collectTags`: every alias is
lower-cased; if `Split` is non-nil while `Type` is non-empty, the code logs an
error and discards the split (`v.Split = nil`); `Type` and `MaxLength` are
copied unchanged. -/
def normalizeEntry (v : TagConf) : TagConf :=
  { aliases := v.aliases.map toLowerStr
    type := v.type
    maxLength := v.maxLength
    split := if v.split ≠ none ∧ v.type ≠ "" then none else v.split }

/-- Model of `collectTags(tagMappings, normalized)`: fold the tier's entries
(in iteration order) into the target map, keyed by the lower-cased tag name. -/
def collectTags (tier : Tier) (normalized : TagMap) : TagMap :=
  tier.foldl (fun acc kv => mapInsert acc (toLowerStr kv.1) (normalizeEntry kv.2)) normalized

/-- The successful body of `parseMappings`, applied to a decoded document:
`normalized := {}`; `collectTags(mappings.Main, normalized)` then
`collectTags(mappings.Additional, normalized)`; returns
`(normalized, mappings)` — note the second component is the RAW document. -/
def parseMappings (doc : MappingsConf) : TagMap × MappingsConf :=
  (collectTags doc.additional (collectTags doc.main []), doc)

/-- Model of the accessor `mappings()`: first component of `parseMappings`. -/
def mappings (doc : MappingsConf) : TagMap := (parseMappings doc).1

/-- Model of the accessor `rolesConf()`: `Roles` of the second component. -/
def rolesConf (doc : MappingsConf) : TagConf := (parseMappings doc).2.roles

/-- Model of the accessor `artistsConf()`: `Artists` of the second component. -/
def artistsConf (doc : MappingsConf) : TagConf := (parseMappings doc).2.artists

/-- The end-to-end example document of the spec (§8): `main` has `year`
(aliases `[date]`, type `integer`) and `genre` (aliases `[genres]`, split
`["/", ";"]`); `additional` has `year` (aliases `[date, releaseyear]`,
maxLength 4); `roles` has alias `ROLE`. -/
def exampleDoc : MappingsConf :=
  { main := [(str2r "year", ⟨[str2r "date"], "integer", 0, none⟩),
             (str2r "genre", ⟨[str2r "genres"], "", 0, some [str2r "/", str2r ";"]⟩)]
    additional := [(str2r "year", ⟨[str2r "date", str2r "releaseyear"], "", 4, none⟩)]
    roles := ⟨[str2r "ROLE"], "", 0, none⟩
    artists := TagConf.zero }

/-- Whether an entry's key lower-cases to `k`. -/
def matchesKey (k : RStr) (kv : RStr × TagConf) : Bool := toLowerStr kv.1 = k

/-- The last entry of the tier (in iteration order) whose key lower-cases to
`k`, if any. -/
def lastMatch (tier : Tier) (k : RStr) : Option (RStr × TagConf) :=
  match tier with
  | [] => none
  | kv :: rest =>
      match lastMatch rest k with
      | some r => some r
      | none => if toLowerStr kv.1 = k then some kv else none

/-- What a tier leaves at key `k`: its own last matching entry, normalized, or
else whatever value `acc` was already there. -/
def overrideWith (acc : Option TagConf) : Option (RStr × TagConf) → Option TagConf
  | some kv => some (normalizeEntry kv.2)
  | none => acc

/-- The value at key `k` after folding a whole tier, as a function of the
value `acc` present before the tier was processed. -/
def lastEntryAux (tier : Tier) (k : RStr) (acc : Option TagConf) : Option TagConf :=
  tier.foldl (fun a kv => if toLowerStr kv.1 = k then some (normalizeEntry kv.2) else a) acc

theorem lowerRune_idem (r : Nat) : lowerRune (lowerRune r) = lowerRune r := by
  by_cases h : 65 ≤ r ∧ r ≤ 90
  · simp only [lowerRune, if_pos h]
    rw [if_neg (show ¬ (65 ≤ r + 32 ∧ r + 32 ≤ 90) by omega)]
  · simp only [lowerRune, if_neg h]

theorem toLowerStr_idem (s : RStr) : toLowerStr (toLowerStr s) = toLowerStr s := by
  induction s with
  | nil => rfl
  | cons r rest ih =>
      simp only [toLowerStr, List.map_cons] at ih ⊢
      rw [lowerRune_idem, ih]

theorem lookupTag_mapInsert (m : TagMap) (k k' : RStr) (v : TagConf) :
    lookupTag (mapInsert m k v) k' = if k = k' then some v else lookupTag m k' := by
  induction m with
  | nil => simp [mapInsert, lookupTag]
  | cons hd rest ih =>
      obtain ⟨k₀, v₀⟩ := hd
      by_cases h1 : k₀ = k
      · subst h1
        by_cases h2 : k₀ = k'
        · subst h2; simp [mapInsert, lookupTag]
        · simp [mapInsert, lookupTag, h2]
      · by_cases h2 : k₀ = k'
        · subst h2
          have hk : ¬ k = k₀ := fun h => h1 h.symm
          simp [mapInsert, lookupTag, h1, hk]
        · simp [mapInsert, lookupTag, h1, h2, ih]

theorem lookupTag_collectTags (tier : Tier) (m : TagMap) (k : RStr) :
    lookupTag (collectTags tier m) k = lastEntryAux tier k (lookupTag m k) := by
  induction tier generalizing m with
  | nil => rfl
  | cons kv rest ih =>
      obtain ⟨k₀, v₀⟩ := kv
      show lookupTag (collectTags rest (mapInsert m (toLowerStr k₀) (normalizeEntry v₀))) k = _
      rw [ih, lookupTag_mapInsert]
      rfl

theorem lastEntryAux_eq_overrideWith (tier : Tier) (k : RStr) (acc : Option TagConf) :
    lastEntryAux tier k acc = overrideWith acc (lastMatch tier k) := by
  induction tier generalizing acc with
  | nil => rfl
  | cons kv rest ih =>
      show lastEntryAux rest k (if toLowerStr kv.1 = k then some (normalizeEntry kv.2) else acc) = _
      rw [ih]
      cases hr : lastMatch rest k with
      | some r => simp [lastMatch, overrideWith, hr]
      | none =>
          by_cases hm : toLowerStr kv.1 = k <;> simp [lastMatch, overrideWith, hr, hm]

/-- The resolved value at key `k` is the normalized last match of the
`additional` tier, or failing that of the `main` tier. -/
theorem lookupTag_mappings (doc : MappingsConf) (k : RStr) :
    lookupTag (mappings doc) k =
      overrideWith (overrideWith none (lastMatch doc.main k)) (lastMatch doc.additional k) := by
  show lookupTag (collectTags doc.additional (collectTags doc.main [])) k = _
  rw [lookupTag_collectTags, lastEntryAux_eq_overrideWith, lookupTag_collectTags,
    lastEntryAux_eq_overrideWith]
  rfl

theorem lastMatch_mem {tier : Tier} {k : RStr} {kv : RStr × TagConf}
    (h : lastMatch tier k = some kv) : kv ∈ tier ∧ toLowerStr kv.1 = k := by
  induction tier with
  | nil => simp [lastMatch] at h
  | cons hd rest ih =>
      rw [lastMatch] at h
      cases hr : lastMatch rest k with
      | some r =>
          rw [hr] at h
          obtain ⟨h1, h2⟩ := ih (hr.trans h)
          exact ⟨List.mem_cons_of_mem _ h1, h2⟩
      | none =>
          rw [hr] at h
          by_cases hm : toLowerStr hd.1 = k
          · rw [if_pos hm] at h
            cases h
            exact ⟨List.mem_cons_self _ _, hm⟩
          · rw [if_neg hm] at h
            cases h

theorem lastMatch_eq_none {tier : Tier} {k : RStr}
    (h : ∀ kv ∈ tier, toLowerStr kv.1 ≠ k) : lastMatch tier k = none := by
  induction tier with
  | nil => rfl
  | cons hd rest ih =>
      rw [lastMatch, ih (fun kv hkv => h kv (List.mem_cons_of_mem _ hkv)),
        if_neg (h hd (List.mem_cons_self _ _))]

theorem lastMatch_isSome_of_mem {tier : Tier} {k : RStr} {kv : RStr × TagConf}
    (h1 : kv ∈ tier) (h2 : toLowerStr kv.1 = k) : (lastMatch tier k).isSome = true := by
  induction tier with
  | nil => cases h1
  | cons hd rest ih =>
      rw [lastMatch]
      cases hr : lastMatch rest k with
      | some r => rfl
      | none =>
          rcases List.mem_cons.mp h1 with h | h
          · subst h; rw [if_pos h2]; rfl
          · have := ih h
            rw [hr] at this
            cases this

theorem mem_mapInsert {m : TagMap} {k : RStr} {v : TagConf} {kv : RStr × TagConf}
    (h : kv ∈ mapInsert m k v) : kv = (k, v) ∨ kv ∈ m := by
  induction m with
  | nil =>
      rw [mapInsert] at h
      rcases List.mem_cons.mp h with h | h
      · exact Or.inl h
      · cases h
  | cons hd rest ih =>
      obtain ⟨k₀, v₀⟩ := hd
      rw [mapInsert] at h
      by_cases h0 : k₀ = k
      · rw [if_pos h0] at h
        rcases List.mem_cons.mp h with h | h
        · exact Or.inl h
        · exact Or.inr (List.mem_cons_of_mem _ h)
      · rw [if_neg h0] at h
        rcases List.mem_cons.mp h with h | h
        · exact Or.inr (h ▸ List.mem_cons_self _ _)
        · rcases ih h with h | h
          · exact Or.inl h
          · exact Or.inr (List.mem_cons_of_mem _ h)

theorem mem_collectTags {tier : Tier} {m : TagMap} {kv : RStr × TagConf}
    (h : kv ∈ collectTags tier m) :
    (∃ e ∈ tier, kv = (toLowerStr e.1, normalizeEntry e.2)) ∨ kv ∈ m := by
  induction tier generalizing m with
  | nil => exact Or.inr h
  | cons hd rest ih =>
      have h' : kv ∈ collectTags rest (mapInsert m (toLowerStr hd.1) (normalizeEntry hd.2)) := h
      rcases ih h' with h2 | h2
      · obtain ⟨e, he, hkv⟩ := h2
        exact Or.inl ⟨e, List.mem_cons_of_mem _ he, hkv⟩
      · rcases mem_mapInsert h2 with h3 | h3
        · exact Or.inl ⟨hd, List.mem_cons_self _ _, h3⟩
        · exact Or.inr h3

/-- Entries of the resolved mapping all arise from normalizing some raw entry
of one of the two tiers. -/
theorem mem_mappings {doc : MappingsConf} {kv : RStr × TagConf}
    (h : kv ∈ mappings doc) :
    ∃ e, (e ∈ doc.main ∨ e ∈ doc.additional) ∧
      kv = (toLowerStr e.1, normalizeEntry e.2) := by
  have h' : kv ∈ collectTags doc.additional (collectTags doc.main []) := h
  rcases mem_collectTags h' with h2 | h2
  · obtain ⟨e, he, hkv⟩ := h2
    exact ⟨e, Or.inr he, hkv⟩
  · rcases mem_collectTags h2 with h3 | h3
    · obtain ⟨e, he, hkv⟩ := h3
      exact ⟨e, Or.inl he, hkv⟩
    · cases h3

/-- With pairwise-distinct lower-cased keys, the last match of a tier is
unchanged by permuting the tier (Go map iteration order). -/
theorem lastMatch_perm {tier tier' : Tier} {k : RStr}
    (hnd : (tier.map (fun kv => toLowerStr kv.1)).Nodup)
    (hp : tier.Perm tier') : lastMatch tier k = lastMatch tier' k := by
  cases h1 : lastMatch tier k with
  | none =>
      have hnone : ∀ kv ∈ tier, toLowerStr kv.1 ≠ k := by
        intro kv hkv hk
        have := lastMatch_isSome_of_mem hkv hk
        rw [h1] at this
        cases this
      refine (lastMatch_eq_none ?_).symm
      intro kv hkv
      exact hnone kv (hp.mem_iff.mpr hkv)
  | some kv =>
      obtain ⟨hmem, hkey⟩ := lastMatch_mem h1
      cases h2 : lastMatch tier' k with
      | none =>
          have := lastMatch_isSome_of_mem (hp.mem_iff.mp hmem) hkey
          rw [h2] at this
          cases this
      | some kv' =>
          obtain ⟨hmem', hkey'⟩ := lastMatch_mem h2
          have hmem'' : kv' ∈ tier := hp.mem_iff.mpr hmem'
          have := List.inj_on_of_nodup_map hnd hmem hmem'' (hkey.trans hkey'.symm)
          exact congrArg some this

/-! ### The resolution cache (`sync.OnceValues`) and its three accessors -/

/-- How the YAML loading + decoding went.  `openError` models
`resources.FS().Open("mappings.yaml")` returning a nil file and an error;
`decodeError` models a successful open whose stream does not decode, leaving
the zero-value document; `ok doc` models a successful decode of `doc`. -/
inductive LoadResult where
  | openError : LoadResult
  | decodeError : LoadResult
  | ok : MappingsConf → LoadResult

/-- A Go runtime panic, as an error value of the embedding. -/
inductive GoPanic where
  | nilInterfaceRead : GoPanic
  deriving Repr, DecidableEq

/-- Model of the body of `parseMappings` including its failure paths, returning
the number of `log.Error` calls the body itself makes (conflict logs inside
`collectTags` not counted) together with the outcome.
* `openError`: the code logs once, then calls
  `yaml.NewDecoder(mappingsFile).Decode` with `mappingsFile` a nil interface;
  the decoder's first read is a method call on a nil `io.Reader`, which
  panics — no value is produced.
* `decodeError`: the code logs once and continues with the zero-value
  `mappingsConf`, normalizing its (empty) tiers.
* `ok doc`: no log, the normal computation. -/
def parseMappingsRun : LoadResult → Nat × Except GoPanic (TagMap × MappingsConf)
  | .openError => (1, .error .nilInterfaceRead)
  | .decodeError => (1, .ok (parseMappings MappingsConf.zero))
  | .ok doc => (0, .ok (parseMappings doc))

/-- Which accessor is being called. -/
inductive Accessor where
  | mappingsAcc : Accessor
  | rolesAcc : Accessor
  | artistsAcc : Accessor
  deriving Repr, DecidableEq

/-- An accessor's return value (the flat mapping, or one sub-config). -/
inductive AccValue where
  | mapVal : TagMap → AccValue
  | confVal : TagConf → AccValue
  deriving Repr, DecidableEq

/-- What each accessor projects out of the cached `parseMappings` pair. -/
def projectAcc : Accessor → TagMap × MappingsConf → AccValue
  | .mappingsAcc, r => .mapVal r.1
  | .rolesAcc, r => .confVal r.2.roles
  | .artistsAcc, r => .confVal r.2.artists

/-- The process-wide `sync.OnceValues` cell guarding `parseMappings`:
`none` before the first call, `some` of the computed pair afterwards. -/
structure OnceState where
  cache : Option (TagMap × MappingsConf)
  deriving Repr, DecidableEq

/-- One accessor call against the once-cell: the first call runs the
`parseMappings` body and stores the pair; later calls reuse the stored pair;
the accessor projects its view out of the pair. -/
def callAccessor (doc : MappingsConf) (s : OnceState) (a : Accessor) :
    AccValue × OnceState :=
  match s.cache with
  | some r => (projectAcc a r, s)
  | none => (projectAcc a (parseMappings doc), ⟨some (parseMappings doc)⟩)

/-- The values returned by a sequence of accessor calls (in program order). -/
def runCalls (doc : MappingsConf) : List Accessor → OnceState → List AccValue
  | [], _ => []
  | a :: rest, s =>
      let r := callAccessor doc s a
      r.1 :: runCalls doc rest r.2

/-- The once-cell state after a sequence of accessor calls. -/
def stateAfter (doc : MappingsConf) : List Accessor → OnceState → OnceState
  | [], s => s
  | a :: rest, s => stateAfter doc rest (callAccessor doc s a).2

theorem runCalls_cached (doc : MappingsConf) (calls : List Accessor) :
    runCalls doc calls ⟨some (parseMappings doc)⟩ =
      calls.map (fun a => projectAcc a (parseMappings doc)) := by
  induction calls with
  | nil => rfl
  | cons a rest ih => simp [runCalls, callAccessor, ih]

theorem stateAfter_cached (doc : MappingsConf) (calls : List Accessor)
    (r : TagMap × MappingsConf) :
    stateAfter doc calls ⟨some r⟩ = ⟨some r⟩ := by
  induction calls with
  | nil => rfl
  | cons a rest ih => simpa [stateAfter, callAccessor] using ih

theorem lastMatch_of_filter_singleton {tier : Tier} {k ka : RStr} {va : TagConf}
    (h : tier.filter (matchesKey k) = [(ka, va)]) : lastMatch tier k = some (ka, va) := by
  induction tier with
  | nil => simp at h
  | cons hd rest ih =>
      rw [List.filter_cons] at h
      by_cases hm : matchesKey k hd = true
      · rw [if_pos hm] at h
        obtain ⟨h1, h2⟩ := List.cons.injEq .. ▸ h
        have hrest : lastMatch rest k = none := by
          refine lastMatch_eq_none ?_
          intro kv hkv hk
          have := List.filter_eq_nil_iff.mp h2 kv hkv
          simp [matchesKey, hk] at this
        have hmk : toLowerStr hd.1 = k := by simpa [matchesKey] using hm
        rw [lastMatch, hrest, if_pos hmk, h1]
      · rw [if_neg hm] at h
        rw [lastMatch, ih h]

theorem overrideWith_isSome {acc : Option TagConf} {x : Option (RStr × TagConf)}
    (h : acc.isSome = true ∨ x.isSome = true) : (overrideWith acc x).isSome = true := by
  cases x with
  | some kv => rfl
  | none =>
      rcases h with h | h
      · exact h
      · cases h

/-! ### The claims -/

/-- C1: on the spec's end-to-end example document, the claimed resolution is
wrong on two points: the resolved `year` entry does not have type `integer`
(the `additional` entry, which has no `type`, fully replaces the `main` one),
and the roles aliases are not lower-cased (`rolesConf` returns the raw
decoded sub-config). -/
theorem claim1_counterexample :
    (lookupTag (mappings exampleDoc) (str2r "year")).map TagConf.type ≠ some "integer" ∧
    (rolesConf exampleDoc).aliases ≠ [str2r "role"] := by decide

/-- C1 (amended): the resolved flat mapping of the example document maps
`year` to `{aliases:[date,releaseyear], type:none, maxLength:4, split:[]}`
(the `additional` entry replaces the `main` one wholesale, so `type` is the
zero value) and `genre` to
`{aliases:[genres], type:none, maxLength:0, split:["/",";"]}`; the roles
config is returned as decoded: `{aliases:[ROLE], type:none, maxLength:0,
split:[]}`, its alias not lower-cased. -/
theorem claim1_amended :
    lookupTag (mappings exampleDoc) (str2r "year") =
      some ⟨[str2r "date", str2r "releaseyear"], "", 4, none⟩ ∧
    lookupTag (mappings exampleDoc) (str2r "genre") =
      some ⟨[str2r "genres"], "", 0, some [str2r "/", str2r ";"]⟩ ∧
    rolesConf exampleDoc = ⟨[str2r "ROLE"], "", 0, none⟩ := by decide

/-- A document whose roles sub-config has an upper-case alias and declares
both a non-empty split and a non-none type. -/
def conflictRolesDoc : MappingsConf :=
  { main := []
    additional := []
    roles := ⟨[str2r "ROLE"], "integer", 0, some [str2r "/"]⟩
    artists := ⟨[str2r "Artist"], "", 0, none⟩ }

/-- C2: false — the roles sub-config returned by `rolesConf()` is NOT
normalized: its alias keeps its upper case (it differs from its own
lower-cased form) and its non-empty split survives together with a type
other than none. -/
theorem claim2_counterexample :
    (rolesConf conflictRolesDoc).aliases = [str2r "ROLE"] ∧
    toLowerStr (str2r "ROLE") ≠ str2r "ROLE" ∧
    (rolesConf conflictRolesDoc).split = some [str2r "/"] ∧
    (rolesConf conflictRolesDoc).type = "integer" := by decide

/-- C2 (amended): `rolesConf()` and `artistsConf()` return the sub-configs
exactly as decoded — `parseMappings` returns the raw document as its second
component and `collectTags` only ever writes into the flat map, so no alias
lower-casing and no split/type correction is applied to them. -/
theorem claim2_amended (doc : MappingsConf) :
    rolesConf doc = doc.roles ∧ artistsConf doc = doc.artists :=
  ⟨rfl, rfl⟩

/-- C3: what the failure paths actually do.  When the document cannot be
opened the body logs once and then panics (the nil file handle is used as a
nil `io.Reader`), so the accessors never return; when the document opens but
cannot be decoded, the body logs once and every accessor gets the empty
mapping and zero-value sub-configs. -/
theorem claim3_evidence :
    parseMappingsRun .openError = (1, .error .nilInterfaceRead) ∧
    parseMappingsRun .decodeError = (1, .ok ([], MappingsConf.zero)) :=
  ⟨rfl, rfl⟩

/-- C4: when a key (after lower-casing) appears in both tiers — the
`additional` tier holding exactly one entry for it — the resolved entry is
the normalized `additional` entry, wholesale: in particular its `maxLength`
is the `additional` one, and nothing of the `main` entry survives. -/
theorem claim4_additional_wins (doc : MappingsConf) (k km ka : RStr) (vm va : TagConf)
    (hmain : (km, vm) ∈ doc.main) (hkm : toLowerStr km = k)
    (hadd : doc.additional.filter (matchesKey k) = [(ka, va)])
    (hdiff : vm.maxLength ≠ va.maxLength) :
    lookupTag (mappings doc) k = some (normalizeEntry va) ∧
    (normalizeEntry va).maxLength = va.maxLength := by
  refine ⟨?_, rfl⟩
  rw [lookupTag_mappings, lastMatch_of_filter_singleton hadd]
  rfl

/-- A two-tier document exercising C4: `Year` in `main` (maxLength 2),
`year` in `additional` (maxLength 4). -/
def precedenceDoc : MappingsConf :=
  { main := [(str2r "Year", ⟨[str2r "date"], "integer", 2, none⟩)]
    additional := [(str2r "year", ⟨[], "", 4, none⟩)]
    roles := TagConf.zero
    artists := TagConf.zero }

theorem claim4_witness :
    lookupTag (mappings precedenceDoc) (str2r "year") =
      some (normalizeEntry ⟨[], "", 4, none⟩) :=
  (claim4_additional_wins precedenceDoc (str2r "year") (str2r "Year") (str2r "year")
    ⟨[str2r "date"], "integer", 2, none⟩ ⟨[], "", 4, none⟩
    (by decide) (by decide) (by decide) (by decide)).1

/-- C5: every key of the resolved flat mapping and every alias stored in any
of its entries is lower-case, i.e. equal to its own lower-cased form. -/
theorem claim5_lowercase (doc : MappingsConf) (k : RStr) (v : TagConf)
    (h : (k, v) ∈ mappings doc) :
    toLowerStr k = k ∧ ∀ a ∈ v.aliases, toLowerStr a = a := by
  obtain ⟨e, _, hkv⟩ := mem_mappings h
  obtain ⟨hk, hv⟩ := Prod.mk.injEq .. ▸ hkv
  constructor
  · rw [hk, toLowerStr_idem]
  · intro a ha
    rw [hv] at ha
    simp only [normalizeEntry] at ha
    obtain ⟨b, _, rfl⟩ := List.mem_map.mp ha
    exact toLowerStr_idem b

theorem claim5_witness : toLowerStr (str2r "year") = str2r "year" :=
  (claim5_lowercase exampleDoc (str2r "year")
    ⟨[str2r "date", str2r "releaseyear"], "", 4, none⟩ (by decide)).1

/-- C6: no resolved entry combines a non-empty split with a non-none type —
in fact a resolved entry with a non-none type always has a nil split; a raw
entry declaring both keeps its type and loses its split, and is still
inserted: its lower-cased key is present in the resolved mapping. -/
theorem claim6_split_conflict :
    (∀ (doc : MappingsConf) (k : RStr) (v : TagConf), (k, v) ∈ mappings doc →
      v.type ≠ "" → v.split = none) ∧
    (∀ v : TagConf, (∃ l, v.split = some l ∧ l ≠ []) → v.type ≠ "" →
      (normalizeEntry v).type = v.type ∧ (normalizeEntry v).split = none) ∧
    (∀ (doc : MappingsConf) (k : RStr) (v : TagConf),
      ((k, v) ∈ doc.main ∨ (k, v) ∈ doc.additional) →
      (lookupTag (mappings doc) (toLowerStr k)).isSome = true) := by
  refine ⟨?_, ?_, ?_⟩
  · intro doc k v h ht
    obtain ⟨e, _, hkv⟩ := mem_mappings h
    obtain ⟨_, hv⟩ := Prod.mk.injEq .. ▸ hkv
    subst hv
    have ht' : e.2.type ≠ "" := ht
    by_cases hs : e.2.split = none
    · simp [normalizeEntry, hs]
    · simp [normalizeEntry, hs, ht']
  · intro v hs ht
    obtain ⟨l, hl, _⟩ := hs
    refine ⟨rfl, ?_⟩
    have hs' : v.split ≠ none := by rw [hl]; exact fun h => by cases h
    simp [normalizeEntry, hs', ht]
  · intro doc k v h
    rw [lookupTag_mappings]
    rcases h with h | h
    · refine overrideWith_isSome (Or.inl (overrideWith_isSome (Or.inr ?_)))
      exact lastMatch_isSome_of_mem h rfl
    · exact overrideWith_isSome (Or.inr (lastMatch_isSome_of_mem h rfl))

/-- A document whose only entry declares both a non-empty split and a
non-none (in fact unrecognized) type. -/
def garbageDoc : MappingsConf :=
  { main := [(str2r "Foo", ⟨[str2r "Bar"], "garbage", 7, some [str2r ";"]⟩)]
    additional := []
    roles := TagConf.zero
    artists := TagConf.zero }

theorem claim6_witness :
    ((normalizeEntry ⟨[str2r "Bar"], "garbage", 7, some [str2r ";"]⟩).type = "garbage" ∧
      (normalizeEntry ⟨[str2r "Bar"], "garbage", 7, some [str2r ";"]⟩).split = none) ∧
    (lookupTag (mappings garbageDoc) (toLowerStr (str2r "Foo"))).isSome = true ∧
    (⟨[str2r "bar"], "garbage", 7, none⟩ : TagConf).split = none :=
  ⟨claim6_split_conflict.2.1 ⟨[str2r "Bar"], "garbage", 7, some [str2r ";"]⟩
      ⟨[str2r ";"], rfl, by decide⟩ (by decide),
   claim6_split_conflict.2.2 garbageDoc (str2r "Foo")
      ⟨[str2r "Bar"], "garbage", 7, some [str2r ";"]⟩ (Or.inl (by decide)),
   claim6_split_conflict.1 garbageDoc (str2r "foo")
      ⟨[str2r "bar"], "garbage", 7, none⟩ (by decide) (by decide)⟩

/-- C7: accessors are idempotent.  Starting from the virgin once-cell, every
call in an arbitrary interleaving of the three accessors returns the fixed
projection of the single computed pair — so any two calls of the same
accessor return equal values — and once the pair is cached no later call
mutates the cell. -/
theorem claim7_idempotent (doc : MappingsConf) (calls : List Accessor)
    (r : TagMap × MappingsConf) :
    runCalls doc calls ⟨none⟩ =
      calls.map (fun a => projectAcc a (parseMappings doc)) ∧
    stateAfter doc calls ⟨some r⟩ = ⟨some r⟩ := by
  constructor
  · cases calls with
    | nil => rfl
    | cons a rest =>
        show projectAcc a (parseMappings doc) ::
          runCalls doc rest ⟨some (parseMappings doc)⟩ = _
        rw [runCalls_cached]
        rfl
  · exact stateAfter_cached doc calls r

/-- C9: the `type` field is never validated.  It is copied unchanged by
normalization; two non-empty type strings produce identical entries apart
from the copied type itself (so ANY non-empty string — not just the four
named values — triggers the split/type conflict rule); a non-nil split is
discarded whenever the type is non-empty; and an unrecognized type string
flows end-to-end into the resolved mapping. -/
theorem claim9_type_unvalidated :
    (∀ v : TagConf, (normalizeEntry v).type = v.type) ∧
    (∀ (v : TagConf) (t₁ t₂ : String), t₁ ≠ "" → t₂ ≠ "" →
      normalizeEntry { v with type := t₁ } =
        { normalizeEntry { v with type := t₂ } with type := t₁ }) ∧
    (∀ v : TagConf, v.split ≠ none → v.type ≠ "" → (normalizeEntry v).split = none) ∧
    lookupTag (mappings garbageDoc) (str2r "foo") =
      some ⟨[str2r "bar"], "garbage", 7, none⟩ := by
  refine ⟨fun v => rfl, ?_, ?_, by decide⟩
  · intro v t₁ t₂ h₁ h₂
    by_cases hs : v.split = none
    · simp [normalizeEntry, hs]
    · simp [normalizeEntry, hs, h₁, h₂]
  · intro v hs ht
    simp [normalizeEntry, hs, ht]

theorem claim9_witness :
    normalizeEntry ⟨[], "date", 0, some [str2r "-"]⟩ =
      { normalizeEntry ⟨[], "uuid", 0, some [str2r "-"]⟩ with type := "date" } ∧
    (normalizeEntry ⟨[], "date", 0, some [str2r "-"]⟩).split = none :=
  ⟨claim9_type_unvalidated.2.1 ⟨[], "", 0, some [str2r "-"]⟩ "date" "uuid"
      (by decide) (by decide),
   claim9_type_unvalidated.2.2.1 ⟨[], "date", 0, some [str2r "-"]⟩
      (by decide) (by decide)⟩

/-- A document whose `main` tier has two distinct keys with the same
lower-cased form, and the same document with those two entries swapped. -/
def collideDoc : MappingsConf :=
  { main := [(str2r "A", ⟨[], "", 1, none⟩), (str2r "a", ⟨[], "", 2, none⟩)]
    additional := []
    roles := TagConf.zero
    artists := TagConf.zero }

/-- `collideDoc` with the opposite iteration order of its `main` tier. -/
def collideDocSwapped : MappingsConf :=
  { main := [(str2r "a", ⟨[], "", 2, none⟩), (str2r "A", ⟨[], "", 1, none⟩)]
    additional := []
    roles := TagConf.zero
    artists := TagConf.zero }

/-- C10: normalization is deterministic exactly up to per-tier key casing.
If within each tier all keys have pairwise-distinct lower-cased forms, any
re-ordering of the tiers (Go map iteration order) yields the same resolved
mapping, pointwise; and there is a document with two same-lower-case keys in
one tier whose two iteration orders resolve a key differently. -/
theorem claim10_determinism :
    (∀ (doc : MappingsConf) (main' add' : Tier),
      (doc.main.map (fun kv => toLowerStr kv.1)).Nodup →
      (doc.additional.map (fun kv => toLowerStr kv.1)).Nodup →
      doc.main.Perm main' → doc.additional.Perm add' →
      ∀ k : RStr, lookupTag (mappings doc) k =
        lookupTag (mappings { doc with main := main', additional := add' }) k) ∧
    (collideDoc.main.Perm collideDocSwapped.main ∧
      collideDoc.additional.Perm collideDocSwapped.additional ∧
      lookupTag (mappings collideDoc) (str2r "a") ≠
        lookupTag (mappings collideDocSwapped) (str2r "a")) := by
  constructor
  · intro doc main' add' hnm hna hpm hpa k
    rw [lookupTag_mappings, lookupTag_mappings]
    dsimp only
    rw [lastMatch_perm hnm hpm, lastMatch_perm hna hpa]
  · exact ⟨by decide, by decide, by decide⟩

theorem claim10_witness :
    lookupTag (mappings precedenceDoc) (str2r "year") =
      lookupTag
        (mappings { precedenceDoc with
          main := [(str2r "Year", ⟨[str2r "date"], "integer", 2, none⟩)]
          additional := [(str2r "year", ⟨[], "", 4, none⟩)] })
        (str2r "year") :=
  claim10_determinism.1 precedenceDoc
    [(str2r "Year", ⟨[str2r "date"], "integer", 2, none⟩)]
    [(str2r "year", ⟨[], "", 4, none⟩)]
    (by decide) (by decide) (by decide) (by decide) (str2r "year")

end Navidrome.Metadata
